import Mathlib

/-!
Shallow embedding of `src/exercism.py`, an Exercism REST API client.

The embedding models, faithfully to the Python source:
* `Exercism.request` — one HTTP call with inline `retry-after` (429) handling;
* `AsyncExercism.get_json_once` — the body of the aiohttp variant of the same
  logic (whose rate-limit retry calls `session.get(*args, **kwargs)` with an
  empty `args`, i.e. without the URL);
* `tenacityRetry` — the semantics of the decorator
  `tenacity.retry(stop=stop_after_attempt(3),
  wait=wait_exponential(multiplier=2, min=15, max=60),
  retry=retry_if_exception_type((HTTPError, ConnectionError)))`
  with tenacity's default `reraise=False` (exhaustion raises `RetryError`);
* `get_all_pages` — the pagination loop, over an abstract server function,
  with the caller's `params` dictionary threaded through `setParam`;
* `update_exercises`, `old_mentor_discussions`, `notification_pusher` and the
  finish/nudge classifier from the module-level `nudge()` driver.

Timestamps are modelled as `Int` seconds.  The Python code compares
`"%Y-%m-%dT%H:%M:%SZ"` strings lexicographically and also parses them with
`strptime`; for that fixed-width zero-padded format the lexicographic order on
strings coincides with the chronological order, so a single totally ordered
timestamp type is a faithful rendering of both comparisons.  Sleep durations
are `Rat` seconds (the source uses floats such as 0.5, but only ever adds and
compares them, so exact rationals are faithful).
-/

/-- Python-level exceptions raised by the embedded code. -/
inductive PyExc where
  /-- `requests.HTTPError` (or the aiohttp analogue) from `raise_for_status`. -/
  | httpError
  /-- `requests.exceptions.ConnectionError`. -/
  | connectionError
  /-- `TypeError`, e.g. calling `session.get()` without its required `url` argument. -/
  | typeError
  /-- `tenacity.RetryError`, raised when the retry policy gives up (default `reraise=False`). -/
  | retryError
  /-- `ValueError`, e.g. `min()`/`max()` of an empty sequence. -/
  | valueError
  deriving DecidableEq, Repr

/-- The decorator's retry predicate:
`retry_if_exception_type((requests.HTTPError, requests.exceptions.ConnectionError))`. -/
def retryable : PyExc → Bool
  | .httpError => true
  | .connectionError => true
  | _ => false

/-- `tenacity.wait_exponential(multiplier=2, min=15, max=60)` evaluated after the
n-th failed attempt (n is 1-based): `max(min, min(multiplier * 2 ** n, max))`. -/
def waitExp (n : Nat) : Rat := max 15 (min (2 * 2 ^ n) 60)

/-- The tenacity retry driver: `remaining` further attempts are allowed and `k`
attempts (0-based index of the next one) were already made.  Returns the number
of attempts performed, the list of backoff waits, and the outcome.  A
non-retryable exception propagates immediately; when `stop_after_attempt(3)` is
reached the last retryable exception is wrapped in `tenacity.RetryError`. -/
def tenacityFrom (out : Nat → Except PyExc α) : Nat → Nat → Nat × List Rat × Except PyExc α
  | 0, _ => (0, [], .error .retryError)
  | r + 1, k =>
    match out k with
    | .ok a => (1, [], .ok a)
    | .error e =>
      if retryable e then
        if r = 0 then (1, [], .error .retryError)
        else
          let t := tenacityFrom out r (k + 1)
          (t.1 + 1, waitExp (k + 1) :: t.2.1, t.2.2)
      else (1, [], .error e)

/-- The concrete decorator used in the source: `stop_after_attempt(3)` with the
wait and retry policies above.  `out k` is the outcome of the k-th attempt. -/
def tenacityRetry (out : Nat → Except PyExc α) : Nat × List Rat × Except PyExc α :=
  tenacityFrom out 3 0

/-- An HTTP response as the client observes it: the optional `retry-after`
header (integer seconds), whether `raise_for_status()` passes, and the JSON body. -/
structure HResp (α : Type) where
  retryAfter : Option Nat
  httpOk : Bool
  body : α
  deriving DecidableEq, Repr

/-- Observable effects of a request-layer call: HTTP calls issued (identified by
their URL) and sleeps (seconds). -/
inductive Ev where
  | call (url : String)
  | sleep (seconds : Rat)
  deriving DecidableEq, Repr

/-- `Exercism.request(func, *args, sleep, **kwargs)`: issue the call; if the
response has a `retry-after` header sleep `delay + 1` seconds and reissue the
identical call once, with no rate-limit check on the retried response; then
`raise_for_status()` and sleep the pacing delay.  `respond i` is the response
to the i-th invocation of `func` with the fixed arguments (summarised by `url`). -/
def Exercism.request (url : String) (respond : Nat → HResp α) (sleep : Rat) :
    List Ev × Except PyExc (HResp α) :=
  let r0 := respond 0
  let tr :=
    match r0.retryAfter with
    | some d => ([Ev.call url, Ev.sleep ((d : Rat) + 1), Ev.call url], respond 1)
    | none => ([Ev.call url], r0)
  if tr.2.httpOk then (tr.1 ++ [Ev.sleep sleep], .ok tr.2) else (tr.1, .error .httpError)

/-- The exercism.org API base URL. -/
def apiBase : String := "https://exercism.org/api/v2"

/-- The body of `AsyncExercism.get_json_with_retries` (one tenacity attempt).
The first call goes to `f"{self.API}/{endpoint}"`.  When the response carries
`retry-after`, the code sleeps `delay + 1` and then retries with
`session.get(*args, **kwargs)`: `args` is empty at every call site, so the URL
is missing and `session.get` raises `TypeError` before any request is issued. -/
def AsyncExercism.get_json_once (endpoint : String) (respond : Nat → HResp α) (sleep : Rat) :
    List Ev × Except PyExc α :=
  let url := apiBase ++ "/" ++ endpoint
  let r0 := respond 0
  match r0.retryAfter with
  | none =>
    if r0.httpOk then ([Ev.call url, Ev.sleep sleep], .ok r0.body)
    else ([Ev.call url], .error .httpError)
  | some d => ([Ev.call url, Ev.sleep ((d : Rat) + 1)], .error .typeError)

/-- `Exercism.get_json_with_retries`: the tenacity decorator around one
`Exercism.request` GET returning the JSON body.  `responds k i` is the server's
response to the i-th call of attempt k. -/
def Exercism.get_json_with_retries (url : String) (responds : Nat → Nat → HResp α)
    (sleep : Rat) : Nat × List Rat × Except PyExc α :=
  tenacityRetry fun k => (Exercism.request url (responds k) sleep).2.map fun r => r.body

/-- `AsyncExercism.get_json_with_retries`: the same tenacity decorator around
the aiohttp body `AsyncExercism.get_json_once`. -/
def AsyncExercism.get_json_with_retries (endpoint : String) (responds : Nat → Nat → HResp α)
    (sleep : Rat) : Nat × List Rat × Except PyExc α :=
  tenacityRetry fun k => (AsyncExercism.get_json_once endpoint (responds k) sleep).2

/-- A notification record, keyed by `uuid` with an `is_read` flag. -/
structure Notification where
  uuid : String
  is_read : Bool
  deriving DecidableEq, Repr

/-- The body of one successful polling cycle of `Exercism.notification_pusher`:
filter the fetched results to unread ones, keep those whose `uuid` is not in
the seen-set, dispatch them in server order, and add their uuids to the seen-set.
Returns (dispatched notifications, new seen-set). -/
def pollStep (seen : List String) (results : List Notification) :
    List Notification × List String :=
  let unread := results.filter fun r => !r.is_read
  let unseen := unread.filter fun r => !(decide (r.uuid ∈ seen))
  (unseen, seen ++ unseen.map fun r => r.uuid)

/-- One polling cycle of `notification_pusher` including its `try/except`:
the `except` clause catches exactly `requests.exceptions.HTTPError`; any other
exception (in particular `tenacity.RetryError`) propagates and ends the loop.
`.ok` means the infinite loop continues with the given (dispatched, seen) pair. -/
def pollCycle (fetch : Except PyExc (List Notification)) (seen : List String) :
    Except PyExc (List Notification × List String) :=
  match fetch with
  | .ok results => .ok (pollStep seen results)
  | .error e => if e = PyExc.httpError then .ok ([], seen) else .error e

/-- The polling loop of `notification_pusher` run over a finite schedule of
successful poll responses, starting from a given seen-set.  Returns the
dispatched notifications of each cycle and the final seen-set. -/
def watcherGo (seen : List String) :
    List (List Notification) → List (List Notification) × List String
  | [] => ([], seen)
  | poll :: rest =>
    let step := pollStep seen poll
    let later := watcherGo step.2 rest
    (step.1 :: later.1, later.2)

/-- `Exercism.notification_pusher` over a finite schedule: prime the seen-set
with the uuids of the notifications present at start (dispatching none of
them), then run the polling cycles. -/
def notification_pusher (priming : List Notification) (polls : List (List Notification)) :
    List (List Notification) × List String :=
  watcherGo (priming.map fun r => r.uuid) polls

/-- A Python dict of string query parameters, as an insertion-ordered
association list (Python 3 dict semantics). -/
abbrev Params := List (String × String)

/-- Python dict assignment `d[k] = v`: replace in place when the key exists,
append otherwise. -/
def setParam : Params → String → String → Params
  | [], k, v => [(k, v)]
  | (k2, v2) :: rest, k, v =>
    if k2 = k then (k, v) :: rest else (k2, v2) :: setParam rest k v

/-- Python dict lookup `d.get(k)`. -/
def getParam : Params → String → Option String
  | [], _ => none
  | (k2, v2) :: rest, k => if k2 = k then some v2 else getParam rest k

/-- The `meta` object of a page envelope. -/
structure PageMeta where
  current_page : Nat
  total_pages : Nat
  deriving DecidableEq, Repr

/-- A page envelope `{results, meta}`. -/
structure Page (α : Type) where
  results : List α
  meta : PageMeta
  deriving DecidableEq, Repr

/-- Outcome of a `get_all_pages` run.  `diverge` models running out of fuel,
i.e. the unbounded `itertools.count` loop not having terminated yet; `fail`
models an exception escaping (with the pages requested so far, for accounting
only — the accumulated records are lost); `done` carries the returned records,
the caller's params dict as left behind, and the pages requested. -/
inductive PagOut (α : Type) where
  | diverge
  | fail (e : PyExc) (requested : List Nat)
  | done (records : List α) (finalParams : Params) (requested : List Nat)
  deriving DecidableEq, Repr

/-- The loop of `get_all_pages` (identical in `Exercism` and `AsyncExercism`):
set `params["page"] = str(page)`, fetch, extend the accumulator with
`response["results"]`, stop when `meta.current_page >= meta.total_pages`,
else continue with `page + 1`.  `server` abstracts `get_json_with_retries`
as a function of the full params dict. -/
def getAllPagesGo (server : Params → Except PyExc (Page α)) :
    Nat → Nat → Params → List α → List Nat → PagOut α
  | 0, _, _, _, _ => .diverge
  | fuel + 1, page, ps, acc, reqs =>
    let ps2 := setParam ps "page" (toString page)
    match server ps2 with
    | .error e => .fail e (reqs ++ [page])
    | .ok r =>
      if r.meta.total_pages ≤ r.meta.current_page then
        .done (acc ++ r.results) ps2 (reqs ++ [page])
      else
        getAllPagesGo server fuel (page + 1) ps2 (acc ++ r.results) (reqs ++ [page])

/-- `get_all_pages(..., params=params)`: start at page 1 with an empty accumulator. -/
def get_all_pages (server : Params → Except PyExc (Page α)) (params : Params)
    (fuel : Nat) : PagOut α :=
  getAllPagesGo server fuel 1 params [] []

/-- The `results` of a successful fetch (used only to state theorems). -/
def okResults : Except PyExc (Page α) → List α
  | .ok r => r.results
  | .error _ => []

/-- A solution record, with the fields `update_exercises` reads. -/
structure Solution where
  uuid : String
  is_out_of_date : Bool
  deriving DecidableEq, Repr

/-- The per-solution loop of `Exercism.update_exercises`: for each solution in
order, skip unless `is_out_of_date`; PATCH its sync endpoint and collect the
returned updated solution; any exception propagates, discarding the updates. -/
def updateGo (patch : String → Except PyExc Solution) :
    List Solution → Except PyExc (List Solution)
  | [] => .ok []
  | s :: rest =>
    if s.is_out_of_date then
      match patch s.uuid with
      | .error e => .error e
      | .ok u => (updateGo patch rest).map fun l => u :: l
    else updateGo patch rest

/-- `Exercism.update_exercises`: paginate all solutions (no caller params),
then sync each out-of-date one.  `none` models the pagination loop not
terminating within the fuel. -/
def update_exercises (server : Params → Except PyExc (Page Solution))
    (patch : String → Except PyExc Solution) (fuel : Nat) :
    Option (Except PyExc (List Solution)) :=
  match get_all_pages server [] fuel with
  | .diverge => none
  | .fail e _ => some (.error e)
  | .done sols _ _ => some (updateGo patch sols)

/-- A mentoring discussion record, with the fields `old_mentor_discussions` reads. -/
structure Discussion where
  uuid : String
  status : String
  updated_at : Int
  deriving DecidableEq, Repr

/-- The inner filter of `Exercism.old_mentor_discussions`, over the fetched
discussions in server page order: skip when `updated_at > cutoff`; otherwise
fetch the discussion's posts and take `max` of their `updated_at` (Python's
`max` of an empty sequence raises `ValueError`); skip when that exceeds the
cutoff; otherwise keep the uuid. -/
def oldDiscGo (cutoff : Int) (posts : String → List Int) :
    List Discussion → Except PyExc (List String)
  | [] => .ok []
  | d :: ds =>
    if cutoff < d.updated_at then oldDiscGo cutoff posts ds
    else
      match (posts d.uuid).max? with
      | none => .error .valueError
      | some m =>
        if cutoff < m then oldDiscGo cutoff posts ds
        else (oldDiscGo cutoff posts ds).map fun rest => d.uuid :: rest

/-- `Exercism.old_mentor_discussions(status, age, order)`: an initial request
reads `total_pages`; the two nested loops (pages 1..page_count, then the
discussions of each page in order) traverse exactly the concatenation of the
pages in order.  `pages p` is the server's result list for page p of the
status/order query; `posts u` is the timestamps of discussion u's posts;
`cutoff` is `now - timedelta(days=age)`. -/
def old_mentor_discussions (pages : Nat → List Discussion) (posts : String → List Int)
    (page_count : Nat) (cutoff : Int) : Except PyExc (List String) :=
  oldDiscGo cutoff posts ((List.range' 1 page_count).flatMap pages)

/-- The inner filter of `old_mentor_discussions` with the fallibility of the
per-discussion posts fetch made explicit: `get_json_with_retries` can raise,
and an exception propagates, discarding the uuids accumulated so far. -/
def oldDiscGoE (cutoff : Int) (postsE : String → Except PyExc (List Int)) :
    List Discussion → Except PyExc (List String)
  | [] => .ok []
  | d :: ds =>
    if cutoff < d.updated_at then oldDiscGoE cutoff postsE ds
    else
      match postsE d.uuid with
      | .error e => .error e
      | .ok ts =>
        match ts.max? with
        | none => .error .valueError
        | some m =>
          if cutoff < m then oldDiscGoE cutoff postsE ds
          else (oldDiscGoE cutoff postsE ds).map fun rest => d.uuid :: rest

/-- The page loop of `old_mentor_discussions` with fallible page fetches:
page p is fetched, then its discussions are processed (fetching posts as
needed), then the next page; an exception anywhere propagates, discarding all
uuids accumulated so far. -/
def oldPagesE (pagesE : Nat → Except PyExc (List Discussion))
    (postsE : String → Except PyExc (List Int)) (cutoff : Int) :
    List Nat → Except PyExc (List String)
  | [] => .ok []
  | p :: rest =>
    match pagesE p with
    | .error e => .error e
    | .ok ds =>
      match oldDiscGoE cutoff postsE ds with
      | .error e => .error e
      | .ok us => (oldPagesE pagesE postsE cutoff rest).map fun more => us ++ more

/-- `Exercism.old_mentor_discussions` with every fetch's fallibility explicit:
`initial` is the outcome of the initial request that reads `total_pages`,
`pagesE p` the outcome of the page-p fetch, `postsE u` the outcome of the
posts fetch for discussion u.  Any exception propagates to the caller with no
partial uuid list.  `old_mentor_discussions` above is this function's
restriction to runs whose fetches all succeed. -/
def old_mentor_discussionsE (initial : Except PyExc Nat)
    (pagesE : Nat → Except PyExc (List Discussion))
    (postsE : String → Except PyExc (List Int)) (cutoff : Int) :
    Except PyExc (List String) :=
  match initial with
  | .error e => .error e
  | .ok page_count => oldPagesE pagesE postsE cutoff (List.range' 1 page_count)

/-- The discussions of a successful page fetch (used only to state theorems). -/
def okDiscs : Except PyExc (List Discussion) → List Discussion
  | .ok ds => ds
  | .error _ => []

/-- The timestamps of a successful posts fetch (used only to state theorems). -/
def okPosts : Except PyExc (List Int) → List Int
  | .ok ts => ts
  | .error _ => []

/-- A discussion post, with the fields the `nudge()` classifier reads. -/
structure Post where
  updated_at : Int
  by_student : Bool
  deriving DecidableEq, Repr

/-- The timestamps of the mentor posts (`not p["by_student"]`). -/
def mentorTimes (posts : List Post) : List Int :=
  (posts.filter fun p => !p.by_student).map fun p => p.updated_at

/-- The timestamps of the student posts (`p["by_student"]`). -/
def studentTimes (posts : List Post) : List Int :=
  (posts.filter fun p => p.by_student).map fun p => p.updated_at

/-- The per-candidate finish/nudge decision of the module-level `nudge()`
driver: `first_mentor = min(mentor post times)` (`ValueError`, modelled as
`none`, when there is no mentor post), `last_student = max(student post times,
default=first_mentor)`, `updated = max(first_mentor, last_student)`,
`posts_since_updated = len([p for p in posts if p.updated_at >= updated])`,
and the discussion is to finish iff `(now - updated).days > 300 and
posts_since_updated > 5` (Python `timedelta.days` floors, hence `Int.fdiv`). -/
def classifyFinish (now : Int) (posts : List Post) : Option Bool :=
  match (mentorTimes posts).min? with
  | none => none
  | some fm =>
    let ls := ((studentTimes posts).max?).getD fm
    let updated := max fm ls
    let since := (posts.filter fun p => updated ≤ p.updated_at).length
    some (decide (300 < (now - updated).fdiv 86400) && decide (5 < since))

/-- `firstMentorPostTime` as the claim states it: the minimum `updated_at`
over posts not by the student. -/
def firstMentorPostTime (posts : List Post) : Option Int := (mentorTimes posts).min?

/-- `referenceTime` as the claim states it: the max of `firstMentorPostTime`
and `lastStudentPostTime`, the latter defaulting to the former when there is
no student post. -/
def referenceTime (posts : List Post) : Option Int :=
  (firstMentorPostTime posts).map fun fm => max fm (((studentTimes posts).max?).getD fm)

/-! ### Helper lemmas -/

theorem waitExp_one : waitExp 1 = 15 := by rw [waitExp]; norm_num

theorem waitExp_two : waitExp 2 = 15 := by rw [waitExp]; norm_num

/-- Complete case analysis of the 3-attempt tenacity driver. -/
theorem tenacityRetry_cases (out : Nat → Except PyExc α) :
    (∃ a, out 0 = .ok a ∧ tenacityRetry out = (1, [], .ok a))
  ∨ (∃ e, out 0 = .error e ∧ retryable e = false ∧ tenacityRetry out = (1, [], .error e))
  ∨ (∃ e a, out 0 = .error e ∧ retryable e = true ∧ out 1 = .ok a ∧
      tenacityRetry out = (2, [15], .ok a))
  ∨ (∃ e e2, out 0 = .error e ∧ retryable e = true ∧ out 1 = .error e2 ∧
      retryable e2 = false ∧ tenacityRetry out = (2, [15], .error e2))
  ∨ (∃ e e2 a, out 0 = .error e ∧ retryable e = true ∧ out 1 = .error e2 ∧
      retryable e2 = true ∧ out 2 = .ok a ∧ tenacityRetry out = (3, [15, 15], .ok a))
  ∨ (∃ e e2 e3, out 0 = .error e ∧ retryable e = true ∧ out 1 = .error e2 ∧
      retryable e2 = true ∧ out 2 = .error e3 ∧ retryable e3 = false ∧
      tenacityRetry out = (3, [15, 15], .error e3))
  ∨ (∃ e e2 e3, out 0 = .error e ∧ retryable e = true ∧ out 1 = .error e2 ∧
      retryable e2 = true ∧ out 2 = .error e3 ∧ retryable e3 = true ∧
      tenacityRetry out = (3, [15, 15], .error .retryError)) := by
  cases h0 : out 0 with
  | ok a =>
    exact Or.inl ⟨a, rfl, by simp [tenacityRetry, tenacityFrom, h0]⟩
  | error e =>
    cases hr : retryable e with
    | false =>
      exact Or.inr (Or.inl ⟨e, rfl, hr, by simp [tenacityRetry, tenacityFrom, h0, hr]⟩)
    | true =>
      cases h1 : out 1 with
      | ok a =>
        refine Or.inr (Or.inr (Or.inl ⟨e, a, rfl, hr, rfl, ?_⟩))
        simp [tenacityRetry, tenacityFrom, h0, hr, h1, waitExp_one]
      | error e2 =>
        cases hr2 : retryable e2 with
        | false =>
          refine Or.inr (Or.inr (Or.inr (Or.inl ⟨e, e2, rfl, hr, rfl, hr2, ?_⟩)))
          simp [tenacityRetry, tenacityFrom, h0, hr, h1, hr2, waitExp_one]
        | true =>
          cases h2 : out 2 with
          | ok a =>
            refine Or.inr (Or.inr (Or.inr (Or.inr (Or.inl
              ⟨e, e2, a, rfl, hr, rfl, hr2, rfl, ?_⟩))))
            simp [tenacityRetry, tenacityFrom, h0, hr, h1, hr2, h2, waitExp_one, waitExp_two]
          | error e3 =>
            cases hr3 : retryable e3 with
            | false =>
              refine Or.inr (Or.inr (Or.inr (Or.inr (Or.inr (Or.inl
                ⟨e, e2, e3, rfl, hr, rfl, hr2, rfl, hr3, ?_⟩)))))
              simp [tenacityRetry, tenacityFrom, h0, hr, h1, hr2, h2, hr3, waitExp_one,
                waitExp_two]
            | true =>
              refine Or.inr (Or.inr (Or.inr (Or.inr (Or.inr (Or.inr
                ⟨e, e2, e3, rfl, hr, rfl, hr2, rfl, hr3, ?_⟩)))))
              simp [tenacityRetry, tenacityFrom, h0, hr, h1, hr2, h2, hr3, waitExp_one,
                waitExp_two]
-- appended block under test
/-- **C1** (the claim fails on the cooperative variant — the code, not the claim,
is at fault).  Blocking variant, first conjuncts: on a first response carrying
`retry-after: 2` the client sleeps 3 = 2 + 1 seconds and reissues the identical
request (same URL) exactly once, with no rate-limit check on the retried
response; with no `retry-after` header no reissue occurs.  Cooperative variant,
last conjunct: after sleeping 3 seconds the retry calls `session.get()` without
the URL, raising `TypeError` instead of reissuing the identical request. -/
theorem rate_limited_retry_divergence :
    Exercism.request "https://exercism.org/api/v2/tracks"
        (fun i => if i = 0 then ⟨some 2, false, 0⟩ else (⟨none, true, 7⟩ : HResp Nat)) (1/2) =
      ([Ev.call "https://exercism.org/api/v2/tracks", Ev.sleep 3,
        Ev.call "https://exercism.org/api/v2/tracks", Ev.sleep (1/2)],
       .ok ⟨none, true, 7⟩)
  ∧ Exercism.request "https://exercism.org/api/v2/tracks"
        (fun _ => (⟨none, true, 7⟩ : HResp Nat)) (1/2) =
      ([Ev.call "https://exercism.org/api/v2/tracks", Ev.sleep (1/2)], .ok ⟨none, true, 7⟩)
  ∧ AsyncExercism.get_json_once "tracks"
        (fun i => if i = 0 then ⟨some 2, false, 0⟩ else (⟨none, true, 7⟩ : HResp Nat)) (1/2) =
      ([Ev.call "https://exercism.org/api/v2/tracks", Ev.sleep 3], .error .typeError) := by
  refine ⟨?_, rfl, ?_⟩ <;> norm_num [Exercism.request, AsyncExercism.get_json_once, apiBase] <;>
    rfl

/-- *Counterexample to C2 as stated*: with three consecutive `HTTPError`
failures the two backoff waits are 15 s and 15 s — not "approximately 15s then
30s": `wait_exponential(multiplier=2, ...)` computes 2·2¹ = 4 and 2·2² = 8,
both clamped up to the 15 s floor. -/
theorem retry_backoff_counterexample :
    (tenacityRetry fun _ => (.error .httpError : Except PyExc Nat)) =
      (3, [15, 15], .error .retryError)
  ∧ (tenacityRetry fun _ => (.error .httpError : Except PyExc Nat)).2.1 ≠ [15, 30] := by
  have h : (tenacityRetry fun _ => (.error .httpError : Except PyExc Nat)) =
      (3, [15, 15], .error .retryError) := by
    simp [tenacityRetry, tenacityFrom, retryable, waitExp_one, waitExp_two]
  refine ⟨h, ?_⟩
  rw [h]
  norm_num

/-- **C2** (amended: the two waits are 15 s and 15 s, not approximately 15 s
then 30 s).  The retry policy makes at most 3 attempts; a non-retryable first
failure propagates immediately after exactly one attempt; three consecutive
retryable failures (HTTPError / ConnectionError) make exactly 3 attempts, no
4th, and fail permanently with waits [15, 15]; all waits are non-decreasing
and within [15, 60] seconds. -/
theorem retry_policy_bounds (α : Type) (out : Nat → Except PyExc α) :
    (tenacityRetry out).1 ≤ 3
  ∧ (∀ e, out 0 = .error e → retryable e = false → tenacityRetry out = (1, [], .error e))
  ∧ ((∀ k, k < 3 → ∃ e, out k = .error e ∧ retryable e = true) →
      tenacityRetry out = (3, [15, 15], .error .retryError))
  ∧ List.Pairwise (fun a b : Rat => a ≤ b) (tenacityRetry out).2.1
  ∧ (∀ w ∈ (tenacityRetry out).2.1, 15 ≤ w ∧ w ≤ 60) := by
  rcases tenacityRetry_cases out with
      ⟨a, h0, hT⟩ | ⟨e, h0, hre, hT⟩ | ⟨e, a, h0, hre, h1, hT⟩ |
      ⟨e, e2, h0, hre, h1, hre2, hT⟩ | ⟨e, e2, a, h0, hre, h1, hre2, h2, hT⟩ |
      ⟨e, e2, e3, h0, hre, h1, hre2, h2, hre3, hT⟩ |
      ⟨e, e2, e3, h0, hre, h1, hre2, h2, hre3, hT⟩ <;>
    rw [hT] <;>
    refine ⟨by norm_num, fun e' he' hre' => ?_, fun hall => ?_,
      by norm_num [List.pairwise_cons],
      by intro w hw; simp at hw; all_goals { subst hw; exact ⟨by norm_num, by norm_num⟩ }⟩
  case _ =>  -- out 0 ok: non-retryable-hypothesis case is vacuous
    rw [h0] at he'; cases he'
  case _ =>
    obtain ⟨e4, he4, hre4⟩ := hall 0 (by norm_num)
    rw [h0] at he4; cases he4
  case _ =>  -- out 0 non-retryable error
    rw [h0] at he'; injection he' with hh; subst hh; rfl
  case _ =>
    obtain ⟨e4, he4, hre4⟩ := hall 0 (by norm_num)
    rw [h0] at he4; injection he4 with hh; subst hh
    rw [hre] at hre4; cases hre4
  case _ =>  -- out 0 retryable, out 1 ok
    rw [h0] at he'; injection he' with hh; subst hh
    rw [hre] at hre'; cases hre'
  case _ =>
    obtain ⟨e4, he4, hre4⟩ := hall 1 (by norm_num)
    rw [h1] at he4; cases he4
  case _ =>  -- out 0 retryable, out 1 non-retryable
    rw [h0] at he'; injection he' with hh; subst hh
    rw [hre] at hre'; cases hre'
  case _ =>
    obtain ⟨e4, he4, hre4⟩ := hall 1 (by norm_num)
    rw [h1] at he4; injection he4 with hh; subst hh
    rw [hre2] at hre4; cases hre4
  case _ =>  -- out 0, out 1 retryable, out 2 ok
    rw [h0] at he'; injection he' with hh; subst hh
    rw [hre] at hre'; cases hre'
  case _ =>
    obtain ⟨e4, he4, hre4⟩ := hall 2 (by norm_num)
    rw [h2] at he4; cases he4
  case _ =>  -- out 0, out 1 retryable, out 2 non-retryable
    rw [h0] at he'; injection he' with hh; subst hh
    rw [hre] at hre'; cases hre'
  case _ =>
    obtain ⟨e4, he4, hre4⟩ := hall 2 (by norm_num)
    rw [h2] at he4; injection he4 with hh; subst hh
    rw [hre3] at hre4; cases hre4
  case _ =>  -- all three retryable failures
    rw [h0] at he'; injection he' with hh; subst hh
    rw [hre] at hre'; cases hre'
  case _ => rfl

/-- Witness for `retry_policy_bounds`: at a stream of three `HTTPError`
failures the exhaustion branch applies and the policy stops after exactly 3
attempts with waits [15, 15]. -/
theorem retry_policy_bounds_witness :
    tenacityRetry (fun _ => (.error .httpError : Except PyExc Nat)) =
      (3, [15, 15], .error .retryError) :=
  (retry_policy_bounds Nat (fun _ => .error .httpError)).2.2.1
    (fun _ _ => ⟨.httpError, rfl, rfl⟩)

/-- **C7** (the claim fails on the code — the code, not the claim, is at
fault).  A notifications fetch in which every attempt raises `HTTPError` (or
`ConnectionError`) surfaces as `tenacity.RetryError` (first two conjuncts);
the poll cycle's `except requests.exceptions.HTTPError` clause does not catch
`RetryError` (or a raw `ConnectionError`), so the exception propagates and the
watch loop terminates instead of continuing (middle conjuncts); the only
exception the clause would swallow is a bare `HTTPError`, which the
tenacity-wrapped fetch can never raise (last conjunct documents the clause). -/
theorem poll_failure_not_swallowed :
    tenacityRetry (fun _ => (.error .httpError : Except PyExc (List Notification))) =
      (3, [15, 15], .error .retryError)
  ∧ tenacityRetry (fun _ => (.error .connectionError : Except PyExc (List Notification))) =
      (3, [15, 15], .error .retryError)
  ∧ pollCycle (.error .retryError) ["a"] = .error .retryError
  ∧ pollCycle (.error .connectionError) ["a"] = .error .connectionError
  ∧ pollCycle (.error .httpError) ["a"] = .ok ([], ["a"]) := by
  refine ⟨?_, ?_, rfl, rfl, rfl⟩ <;>
    simp [tenacityRetry, tenacityFrom, retryable, waitExp_one, waitExp_two]

/-- **C9** (the claim fails on the code — the code, not the claim, is at
fault).  On the identical sequence of server responses (a rate-limited first
response, then a successful one), the blocking fetch returns the JSON body of
the retried response, while the cooperative fetch raises `TypeError` (its
rate-limit retry omits the URL), which is not retryable, so the two variants
do not produce the same result. -/
theorem sync_async_divergence :
    Exercism.get_json_with_retries "https://exercism.org/api/v2/tracks"
        (fun _ i => if i = 0 then ⟨some 2, false, 0⟩ else (⟨none, true, 7⟩ : HResp Nat)) (1/5) =
      (1, [], .ok 7)
  ∧ AsyncExercism.get_json_with_retries "tracks"
        (fun _ i => if i = 0 then ⟨some 2, false, 0⟩ else (⟨none, true, 7⟩ : HResp Nat)) (1/5) =
      (1, [], .error .typeError)
  ∧ (.ok 7 : Except PyExc Nat) ≠ .error .typeError :=
  ⟨rfl, rfl, by simp⟩

theorem setParam_setParam (ps : Params) (k v w : String) :
    setParam (setParam ps k v) k w = setParam ps k w := by
  induction ps with
  | nil => simp [setParam]
  | cons h t ih =>
    obtain ⟨k2, v2⟩ := h
    by_cases hk : k2 = k
    · subst hk; simp [setParam]
    · simp [setParam, hk, ih]

theorem getParam_setParam_self (ps : Params) (k v : String) :
    getParam (setParam ps k v) k = some v := by
  induction ps with
  | nil => simp [setParam, getParam]
  | cons h t ih =>
    obtain ⟨k2, v2⟩ := h
    by_cases hk : k2 = k
    · subst hk; simp [setParam, getParam]
    · simp [setParam, getParam, hk, ih]

theorem getParam_setParam_ne (ps : Params) (k v k2 : String) (hne : k2 ≠ k) :
    getParam (setParam ps k v) k2 = getParam ps k2 := by
  have hkk2 : ¬ k = k2 := fun h => hne h.symm
  induction ps with
  | nil => simp [setParam, getParam, hkk2]
  | cons h t ih =>
    obtain ⟨k3, v3⟩ := h
    by_cases hk : k3 = k
    · subst hk
      simp [setParam, getParam, hkk2]
    · simp [setParam, getParam, hk, ih]

/-- Under a stable server (page p answers with `current_page = p`,
`total_pages = T`), the pagination loop visits exactly pages `page..T`. -/
theorem getAllPagesGo_stable (server : Params → Except PyExc (Page α)) (pg : Nat → Page α)
    (T : Nat) (ps0 : Params)
    (hs : ∀ p, 1 ≤ p → p ≤ T → server (setParam ps0 "page" (toString p)) = .ok (pg p))
    (hcur : ∀ p, 1 ≤ p → p ≤ T → (pg p).meta.current_page = p)
    (htot : ∀ p, 1 ≤ p → p ≤ T → (pg p).meta.total_pages = T) :
    ∀ fuel page ps acc reqs, 1 ≤ page → page ≤ T → T + 1 - page ≤ fuel →
      (∀ v, setParam ps "page" v = setParam ps0 "page" v) →
      getAllPagesGo server fuel page ps acc reqs =
        .done (acc ++ (List.range' page (T + 1 - page)).flatMap fun p => (pg p).results)
              (setParam ps0 "page" (toString T))
              (reqs ++ List.range' page (T + 1 - page)) := by
  intro fuel
  induction fuel with
  | zero => intro page ps acc reqs h1 h2 h3 _; omega
  | succ f ih =>
    intro page ps acc reqs h1 h2 h3 hps
    have hsrv : server (setParam ps "page" (toString page)) = .ok (pg page) := by
      rw [hps]; exact hs page h1 h2
    by_cases hlast : T ≤ page
    · have hpage : page = T := le_antisymm h2 hlast
      have hstop : (pg page).meta.total_pages ≤ (pg page).meta.current_page := by
        rw [hcur page h1 h2, htot page h1 h2]; omega
      have hone : T + 1 - page = 1 := by omega
      simp only [getAllPagesGo, hsrv, hstop, if_pos, hone, List.range'_one]
      rw [hps, hpage]
      simp
    · have hstop : ¬ (pg page).meta.total_pages ≤ (pg page).meta.current_page := by
        rw [hcur page h1 h2, htot page h1 h2]; omega
      have hrw : getAllPagesGo server (f + 1) page ps acc reqs =
          getAllPagesGo server f (page + 1) (setParam ps "page" (toString page))
            (acc ++ (pg page).results) (reqs ++ [page]) := by
        simp only [getAllPagesGo, hsrv, hstop, if_neg, not_false_iff]
      rw [hrw, ih (page + 1) _ _ _ (by omega) (by omega) (by omega)
        (fun v => by rw [setParam_setParam]; exact hps v)]
      have hsplit : T + 1 - page = (T - page) + 1 := by omega
      have hsplit2 : T + 1 - (page + 1) = T - page := by omega
      rw [hsplit, hsplit2, List.range'_succ]
      simp [List.append_assoc]

/-- Whatever the server does, a `.done` outcome of the pagination loop is
complete: the requested pages are consecutive from the start page, every one
of those fetches succeeded, the records are exactly the concatenation of their
results in page order, and the final params carry the last page number. -/
theorem getAllPagesGo_done (server : Params → Except PyExc (Page α)) :
    ∀ fuel page ps acc reqs recs psF reqsF,
      getAllPagesGo server fuel page ps acc reqs = .done recs psF reqsF →
      ∃ n, 1 ≤ n ∧
        reqsF = reqs ++ List.range' page n ∧
        psF = setParam ps "page" (toString (page + n - 1)) ∧
        (∀ p ∈ List.range' page n, ∃ r, server (setParam ps "page" (toString p)) = .ok r) ∧
        recs = acc ++ (List.range' page n).flatMap fun p =>
          okResults (server (setParam ps "page" (toString p))) := by
  intro fuel
  induction fuel with
  | zero =>
    intro page ps acc reqs recs psF reqsF h
    simp [getAllPagesGo] at h
  | succ f ih =>
    intro page ps acc reqs recs psF reqsF h
    rw [getAllPagesGo] at h
    split at h
    · exact absurd h (by simp)
    · rename_i r hsrv
      by_cases hstop : r.meta.total_pages ≤ r.meta.current_page
      · rw [if_pos hstop] at h
        obtain ⟨hrecs, hps, hreqs⟩ := PagOut.done.inj h
        refine ⟨1, le_refl 1, ?_, ?_, ?_, ?_⟩
        · rw [← hreqs]; simp [List.range'_one]
        · have hpp : page + 1 - 1 = page := by omega
          rw [hpp, ← hps]
        · intro p hp
          rw [List.range'_one, List.mem_singleton] at hp
          subst hp
          exact ⟨r, hsrv⟩
        · rw [← hrecs]; simp [List.range'_one, okResults, hsrv]
      · rw [if_neg hstop] at h
        obtain ⟨n, hn1, hreqs, hps, hok, hrecs⟩ :=
          ih (page + 1) (setParam ps "page" (toString page)) (acc ++ r.results)
            (reqs ++ [page]) recs psF reqsF h
        simp only [setParam_setParam] at hreqs hps hok hrecs
        refine ⟨n + 1, by omega, ?_, ?_, ?_, ?_⟩
        · rw [hreqs, List.range'_succ]; simp
        · have hpp : page + 1 + n - 1 = page + (n + 1) - 1 := by omega
          rw [hps, hpp]
        · intro p hp
          rw [List.range'_succ, List.mem_cons] at hp
          rcases hp with hp | hp
          · subst hp; exact ⟨r, hsrv⟩
          · exact hok p hp
        · rw [hrecs, List.range'_succ, List.flatMap_cons]
          simp [okResults, hsrv, List.append_assoc]

/-- A server whose every response reports `current_page = 1` (equal to the
requested page on the only request made) and a stable `total_pages = 0`, with
one record in its result list. -/
def zeroTotalServer : Params → Except PyExc (Page Nat) := fun _ => .ok ⟨[42], ⟨1, 0⟩⟩

/-- *Counterexample to C3 as stated*: with a stable `total_pages = 0` and
`current_page` equal to the requested page, the loop still issues 1 request
(for page 1) — not `total_pages = 0` requests — and returns that page's
record, so the accumulated count differs from the sum over pages 1..0. -/
theorem pagination_zero_total_counterexample :
    get_all_pages zeroTotalServer [] 5 = .done [42] [("page", "1")] [1]
  ∧ ([1] : List Nat).length ≠ 0
  ∧ ([42] : List Nat).length ≠ (((List.range' 1 0).map fun _ => (0 : Nat)).sum) := by
  refine ⟨rfl, by simp, by simp⟩

/-- **C3** (amended: requires the stable `total_pages` value `T` to be at
least 1; for `T = 0` the loop still issues one request for page 1 — see the
counterexample).  Under a stable server — page p answers `current_page = p`
and `total_pages = T` — `get_all_pages` returns every record of every page
exactly once, in page order (the concatenation of the per-page results),
issues exactly `T` pairwise distinct page requests, and the record count is
the sum of `len(results)` over all pages. -/
theorem pagination_stable_complete (α : Type) (server : Params → Except PyExc (Page α))
    (pg : Nat → Page α) (T fuel : Nat) (ps : Params)
    (hT : 1 ≤ T) (hfuel : T ≤ fuel)
    (hs : ∀ p, 1 ≤ p → p ≤ T → server (setParam ps "page" (toString p)) = .ok (pg p))
    (hcur : ∀ p, 1 ≤ p → p ≤ T → (pg p).meta.current_page = p)
    (htot : ∀ p, 1 ≤ p → p ≤ T → (pg p).meta.total_pages = T) :
    get_all_pages server ps fuel =
      .done ((List.range' 1 T).flatMap fun p => (pg p).results)
            (setParam ps "page" (toString T))
            (List.range' 1 T)
  ∧ (List.range' 1 T).length = T
  ∧ (List.range' 1 T).Nodup
  ∧ ((List.range' 1 T).flatMap fun p => (pg p).results).length =
      ((List.range' 1 T).map fun p => (pg p).results.length).sum := by
  have h := getAllPagesGo_stable server pg T ps hs hcur htot fuel 1 ps [] []
    (le_refl 1) hT (by omega) (fun v => rfl)
  have hT1 : T + 1 - 1 = T := by omega
  rw [hT1] at h
  refine ⟨by simpa using h, List.length_range' .., List.nodup_range' .., ?_⟩
  rw [List.length_flatMap]
  rfl

/-- Witness for `pagination_stable_complete`: a concrete stable 2-page server. -/
def stablePagesW : Nat → Page Nat := fun p =>
  if p = 1 then ⟨[10, 11], ⟨1, 2⟩⟩ else ⟨[12], ⟨2, 2⟩⟩

/-- Witness server for `pagination_stable_complete`. -/
def stableServerW : Params → Except PyExc (Page Nat) := fun ps =>
  if getParam ps "page" = some "1" then .ok (stablePagesW 1)
  else if getParam ps "page" = some "2" then .ok (stablePagesW 2)
  else .error .httpError

/-- Witness for `pagination_stable_complete` at the concrete 2-page server:
both pages' records, in order, with exactly the two page requests. -/
theorem pagination_stable_complete_witness :
    get_all_pages stableServerW [] 2 = .done [10, 11, 12] [("page", "2")] [1, 2] :=
  ((pagination_stable_complete Nat stableServerW stablePagesW 2 2 []
      (by norm_num) (le_refl 2)
      (fun p h1 h2 => by interval_cases p <;> rfl)
      (fun p h1 h2 => by interval_cases p <;> rfl)
      (fun p h1 h2 => by interval_cases p <;> rfl)).1).trans (by rfl)

/-- **C10**: a terminating `get_all_pages` run leaves the caller's params dict
with `"page"` bound to the string form of the last page number fetched (the
number of page requests), overwriting any caller-supplied `"page"` value, and
leaves every other key unchanged.  (Object identity — mutation in place — is
outside the shallow embedding; the dict's observable contents after the call
are what is modelled, and they are shared by the blocking and cooperative
variants, whose loops are identical.) -/
theorem params_page_mutation (α : Type) (server : Params → Except PyExc (Page α))
    (ps : Params) (fuel : Nat) (recs : List α) (psF : Params) (reqsF : List Nat)
    (h : get_all_pages server ps fuel = .done recs psF reqsF) :
    getParam psF "page" = some (toString reqsF.length)
  ∧ ∀ k, k ≠ "page" → getParam psF k = getParam ps k := by
  obtain ⟨n, hn1, hreqs, hps, _, _⟩ :=
    getAllPagesGo_done server fuel 1 ps [] [] recs psF reqsF h
  have hlen : reqsF.length = n := by rw [hreqs]; simp
  have h1n : 1 + n - 1 = n := by omega
  subst hps
  rw [h1n, hlen]
  exact ⟨getParam_setParam_self .., fun k hk => getParam_setParam_ne ps "page" _ k hk⟩

/-- Witness for `params_page_mutation`: a 2-page traversal starting from
`[("status", "x"), ("page", "99")]` ends with `"page"` overwritten to `"2"`
and `"status"` untouched. -/
theorem params_page_mutation_witness :
    getParam [("status", "x"), ("page", "2")] "page" = some "2"
  ∧ ∀ k, k ≠ "page" →
      getParam [("status", "x"), ("page", "2")] k =
        getParam [("status", "x"), ("page", "99")] k := by
  have h := params_page_mutation Nat
    (fun ps => if getParam ps "page" = some "1" then .ok ⟨[10], ⟨1, 2⟩⟩
      else .ok ⟨[12], ⟨2, 2⟩⟩)
    [("status", "x"), ("page", "99")] 3 [10, 12] [("status", "x"), ("page", "2")] [1, 2] rfl
  exact ⟨h.1.trans (by rfl), h.2⟩

theorem int_min?_spec {l : List Int} {m : Int} (h : l.min? = some m) :
    m ∈ l ∧ ∀ x ∈ l, m ≤ x := by
  haveI : Std.Antisymm fun x1 x2 : Int => x1 ≤ x2 := ⟨fun h h' => le_antisymm h h'⟩
  rw [List.min?_eq_some_iff (fun a => le_refl a) (fun a b => min_choice a b)
    (fun a b c => le_min_iff)] at h
  exact h

theorem int_max?_spec {l : List Int} {m : Int} (h : l.max? = some m) :
    m ∈ l ∧ ∀ x ∈ l, x ≤ m := by
  haveI : Std.Antisymm fun x1 x2 : Int => x1 ≤ x2 := ⟨fun h h' => le_antisymm h h'⟩
  rw [List.max?_eq_some_iff (fun a => le_refl a) (fun a b => max_choice a b)
    (fun a b c => max_le_iff)] at h
  exact h

theorem int_max?_of_ne_nil {l : List Int} (hl : l ≠ []) : ∃ m, l.max? = some m := by
  cases l with
  | nil => exact absurd rfl hl
  | cons a t => exact ⟨t.foldl max a, rfl⟩

/-- A successful `updateGo` run synced every out-of-date solution: each such
patch succeeded and the returned list has one entry per out-of-date solution. -/
theorem updateGo_ok (patch : String → Except PyExc Solution) :
    ∀ sols ups, updateGo patch sols = .ok ups →
      (∀ s ∈ sols, s.is_out_of_date = true → ∃ u, patch s.uuid = .ok u) ∧
      ups.length = (sols.filter fun s => s.is_out_of_date).length := by
  intro sols
  induction sols with
  | nil =>
    intro ups h
    rw [updateGo] at h
    obtain rfl := (Except.ok.inj h).symm
    simp
  | cons s rest ih =>
    intro ups h
    rw [updateGo] at h
    by_cases hod : s.is_out_of_date
    · rw [if_pos hod] at h
      cases hp : patch s.uuid with
      | error e => rw [hp] at h; simp at h
      | ok u =>
        rw [hp] at h
        cases hrest : updateGo patch rest with
        | error e => rw [hrest] at h; simp [Except.map] at h
        | ok ups2 =>
          rw [hrest] at h
          simp only [Except.map] at h
          obtain rfl := (Except.ok.inj h).symm
          obtain ⟨ihall, ihlen⟩ := ih ups2 hrest
          refine ⟨?_, ?_⟩
          · intro s2 hs2 hs2od
            rcases List.mem_cons.mp hs2 with rfl | hs2
            · exact ⟨u, hp⟩
            · exact ihall s2 hs2 hs2od
          · simp [List.filter_cons, hod, ihlen]
    · rw [if_neg hod] at h
      obtain ⟨ihall, ihlen⟩ := ih ups h
      refine ⟨?_, ?_⟩
      · intro s2 hs2 hs2od
        rcases List.mem_cons.mp hs2 with rfl | hs2
        · exact absurd hs2od (by simpa using hod)
        · exact ihall s2 hs2 hs2od
      · simp [List.filter_cons, hod, ihlen]

/-- A successful run of the fallible per-discussion loop performed only
successful fetches and returns exactly the two-check filter of its input. -/
theorem oldDiscGoE_ok (cutoff : Int) (postsE : String → Except PyExc (List Int)) :
    ∀ ds us, oldDiscGoE cutoff postsE ds = .ok us →
      (∀ d ∈ ds, d.updated_at ≤ cutoff → ∃ ts, postsE d.uuid = .ok ts ∧ ts ≠ []) ∧
      us = (ds.filter fun d => decide (d.updated_at ≤ cutoff) &&
          (okPosts (postsE d.uuid)).all fun t => decide (t ≤ cutoff)).map fun d => d.uuid := by
  intro ds
  induction ds with
  | nil =>
    intro us h
    rw [oldDiscGoE] at h
    obtain rfl := (Except.ok.inj h).symm
    simp
  | cons d rest ih =>
    intro us h
    rw [oldDiscGoE] at h
    by_cases hup : cutoff < d.updated_at
    · rw [if_pos hup] at h
      obtain ⟨ihall, ihus⟩ := ih us h
      refine ⟨?_, ?_⟩
      · intro d2 hd2 hle
        rcases List.mem_cons.mp hd2 with rfl | hd2
        · exact absurd hle (not_le.mpr hup)
        · exact ihall d2 hd2 hle
      · have hpred : (decide (d.updated_at ≤ cutoff) &&
            ((okPosts (postsE d.uuid)).all fun t => decide (t ≤ cutoff))) = false := by
          simp [not_le.mpr hup]
        rw [List.filter_cons, if_neg (by simp [hpred]), ihus]
    · rw [if_neg hup] at h
      split at h
      · simp at h
      rename_i ts hts
      split at h
      · simp at h
      rename_i m hm
      have hne : ts ≠ [] := by
        intro hnil
        rw [hnil] at hm
        exact Option.noConfusion hm
      obtain ⟨hmem, hmax⟩ := int_max?_spec hm
      have hok : okPosts (postsE d.uuid) = ts := by rw [hts]; rfl
      by_cases hmc : cutoff < m
      · rw [if_pos hmc] at h
        obtain ⟨ihall, ihus⟩ := ih us h
        refine ⟨?_, ?_⟩
        · intro d2 hd2 hle
          rcases List.mem_cons.mp hd2 with rfl | hd2
          · exact ⟨ts, hts, hne⟩
          · exact ihall d2 hd2 hle
        · have hall : ((okPosts (postsE d.uuid)).all fun t => decide (t ≤ cutoff)) = false := by
            rw [hok]
            exact List.all_eq_false.mpr ⟨m, hmem, by simp [not_le.mpr hmc]⟩
          rw [List.filter_cons, if_neg (by simp [hall]), ihus]
      · rw [if_neg hmc] at h
        cases hrest : oldDiscGoE cutoff postsE rest with
        | error e => rw [hrest] at h; simp [Except.map] at h
        | ok us2 =>
          rw [hrest] at h
          simp only [Except.map] at h
          obtain rfl := (Except.ok.inj h).symm
          obtain ⟨ihall, ihus⟩ := ih us2 hrest
          refine ⟨?_, ?_⟩
          · intro d2 hd2 hle
            rcases List.mem_cons.mp hd2 with rfl | hd2
            · exact ⟨ts, hts, hne⟩
            · exact ihall d2 hd2 hle
          · have hall : ((okPosts (postsE d.uuid)).all fun t => decide (t ≤ cutoff)) = true := by
              rw [hok]
              exact List.all_eq_true.mpr fun t ht => by
                simp [le_trans (hmax t ht) (not_lt.mp hmc)]
            have hpred : (decide (d.updated_at ≤ cutoff) &&
                ((okPosts (postsE d.uuid)).all fun t => decide (t ≤ cutoff))) = true := by
              simp [not_lt.mp hup, hall]
            rw [List.filter_cons, if_pos hpred, List.map_cons, ihus]

/-- A successful run of the fallible page loop fetched every page and returns
exactly the two-check filter of the concatenation of the pages, in order. -/
theorem oldPagesE_ok (pagesE : Nat → Except PyExc (List Discussion))
    (postsE : String → Except PyExc (List Int)) (cutoff : Int) :
    ∀ plist us, oldPagesE pagesE postsE cutoff plist = .ok us →
      (∀ p ∈ plist, ∃ ds, pagesE p = .ok ds) ∧
      (∀ d ∈ plist.flatMap fun p => okDiscs (pagesE p),
        d.updated_at ≤ cutoff → ∃ ts, postsE d.uuid = .ok ts ∧ ts ≠ []) ∧
      us = ((plist.flatMap fun p => okDiscs (pagesE p)).filter fun d =>
          decide (d.updated_at ≤ cutoff) &&
            (okPosts (postsE d.uuid)).all fun t => decide (t ≤ cutoff)).map fun d => d.uuid := by
  intro plist
  induction plist with
  | nil =>
    intro us h
    rw [oldPagesE] at h
    obtain rfl := (Except.ok.inj h).symm
    simp
  | cons p rest ih =>
    intro us h
    rw [oldPagesE] at h
    split at h
    · simp at h
    rename_i ds hds
    split at h
    · simp at h
    rename_i us1 hus1
    cases hrest : oldPagesE pagesE postsE cutoff rest with
    | error e => rw [hrest] at h; simp [Except.map] at h
    | ok us2 =>
      rw [hrest] at h
      simp only [Except.map] at h
      obtain rfl := (Except.ok.inj h).symm
      obtain ⟨ih1, ih2, ih3⟩ := ih us2 hrest
      obtain ⟨hall1, hus1eq⟩ := oldDiscGoE_ok cutoff postsE ds us1 hus1
      have hok : okDiscs (pagesE p) = ds := by rw [hds]; rfl
      refine ⟨?_, ?_, ?_⟩
      · intro p2 hp2
        rcases List.mem_cons.mp hp2 with rfl | hp2
        · exact ⟨ds, hds⟩
        · exact ih1 p2 hp2
      · intro d hd hle
        rw [List.flatMap_cons, List.mem_append] at hd
        rcases hd with hd | hd
        · rw [hok] at hd
          exact hall1 d hd hle
        · exact ih2 d hd hle
      · rw [List.flatMap_cons, List.filter_append, List.map_append, hok, ← hus1eq, ← ih3]

/-- **C8**: one-shot operations are all-or-nothing.  First conjunct: whenever
`get_all_pages` returns a record list at all, the pages requested are exactly
1..n, every one of those fetches succeeded, and the records are the complete
concatenation of their results — a failed fetch yields a `.fail` outcome,
which carries no records.  Second conjunct: whenever `update_exercises`
returns a list of updates, the underlying pagination completed and every
out-of-date solution's sync PATCH succeeded, with one update per out-of-date
solution — a failure anywhere yields an error with no partial update list.
Third conjunct: whenever the classification `old_mentor_discussions` returns
a uuid list, its initial request, every page fetch and every posts fetch it
performed succeeded, and the list is the complete two-check filter of all
fetched discussions in page order — a fetch failure anywhere yields an error
carrying no partial uuid list. -/
theorem one_shot_all_or_nothing (α : Type) :
    (∀ (server : Params → Except PyExc (Page α)) (ps : Params) (fuel : Nat)
        (recs : List α) (psF : Params) (reqsF : List Nat),
      get_all_pages server ps fuel = .done recs psF reqsF →
      ∃ n, 1 ≤ n ∧ reqsF = List.range' 1 n ∧
        (∀ p ∈ List.range' 1 n, ∃ r, server (setParam ps "page" (toString p)) = .ok r) ∧
        recs = (List.range' 1 n).flatMap fun p =>
          okResults (server (setParam ps "page" (toString p))))
  ∧ (∀ (server : Params → Except PyExc (Page Solution))
        (patch : String → Except PyExc Solution) (fuel : Nat) (ups : List Solution),
      update_exercises server patch fuel = some (.ok ups) →
      ∃ sols psF reqsF, get_all_pages server [] fuel = .done sols psF reqsF ∧
        (∀ s ∈ sols, s.is_out_of_date = true → ∃ u, patch s.uuid = .ok u) ∧
        ups.length = (sols.filter fun s => s.is_out_of_date).length)
  ∧ (∀ (initial : Except PyExc Nat) (pagesE : Nat → Except PyExc (List Discussion))
        (postsE : String → Except PyExc (List Int)) (cutoff : Int) (us : List String),
      old_mentor_discussionsE initial pagesE postsE cutoff = .ok us →
      ∃ T, initial = .ok T ∧
        (∀ p ∈ List.range' 1 T, ∃ ds, pagesE p = .ok ds) ∧
        (∀ d ∈ (List.range' 1 T).flatMap fun p => okDiscs (pagesE p),
          d.updated_at ≤ cutoff → ∃ ts, postsE d.uuid = .ok ts ∧ ts ≠ []) ∧
        us = (((List.range' 1 T).flatMap fun p => okDiscs (pagesE p)).filter fun d =>
            decide (d.updated_at ≤ cutoff) &&
              (okPosts (postsE d.uuid)).all fun t => decide (t ≤ cutoff)).map
          fun d => d.uuid) := by
  refine ⟨?_, ?_, ?_⟩
  · intro server ps fuel recs psF reqsF h
    obtain ⟨n, hn1, hreqs, hps, hok, hrecs⟩ :=
      getAllPagesGo_done server fuel 1 ps [] [] recs psF reqsF h
    exact ⟨n, hn1, by simpa using hreqs, hok, by simpa using hrecs⟩
  · intro server patch fuel ups h
    rw [update_exercises] at h
    cases hpag : get_all_pages server [] fuel with
    | diverge => rw [hpag] at h; simp at h
    | fail e reqs => rw [hpag] at h; simp at h
    | done sols psF reqsF =>
      rw [hpag] at h
      simp only [Option.some.injEq] at h
      exact ⟨sols, psF, reqsF, rfl, updateGo_ok patch sols ups h⟩
  · intro initial pagesE postsE cutoff us h
    unfold old_mentor_discussionsE at h
    split at h
    · simp at h
    rename_i T
    exact ⟨T, rfl, oldPagesE_ok pagesE postsE cutoff (List.range' 1 T) us h⟩

/-- Witness server for `one_shot_all_or_nothing`: one page of two solutions,
one of them out of date. -/
def solutionsServerW : Params → Except PyExc (Page Solution) := fun ps =>
  if getParam ps "page" = some "1"
  then .ok ⟨[⟨"a", true⟩, ⟨"b", false⟩], ⟨1, 1⟩⟩ else .error .httpError

/-- Witness patch action for `one_shot_all_or_nothing`: syncing succeeds and
returns the solution no longer out of date. -/
def patchW : String → Except PyExc Solution := fun u => .ok ⟨u, false⟩

/-- Witness page fetches for `one_shot_all_or_nothing`: page 1 holds one stale
and one fresh discussion; no other page is ever requested. -/
def discPagesEW : Nat → Except PyExc (List Discussion) := fun p =>
  if p = 1 then .ok [⟨"d1", "awaiting_student", 50⟩, ⟨"d2", "awaiting_student", 200⟩]
  else .error .httpError

/-- Witness posts fetches for `one_shot_all_or_nothing`: every posts fetch
succeeds with one old post. -/
def discPostsEW : String → Except PyExc (List Int) := fun _ => .ok [40]

/-- Witness for `one_shot_all_or_nothing` at concrete servers: a one-page
solutions traversal, its sync run, and a one-page classification run. -/
theorem one_shot_all_or_nothing_witness :
    (∃ n, 1 ≤ n ∧ ([1] : List Nat) = List.range' 1 n ∧
      (∀ p ∈ List.range' 1 n, ∃ r,
        solutionsServerW (setParam [] "page" (toString p)) = .ok r) ∧
      [(⟨"a", true⟩ : Solution), ⟨"b", false⟩] = (List.range' 1 n).flatMap fun p =>
        okResults (solutionsServerW (setParam [] "page" (toString p))))
  ∧ (∃ sols psF reqsF, get_all_pages solutionsServerW [] 1 = .done sols psF reqsF ∧
      (∀ s ∈ sols, s.is_out_of_date = true → ∃ u, patchW s.uuid = .ok u) ∧
      ([(⟨"a", false⟩ : Solution)] : List Solution).length =
        (sols.filter fun s => s.is_out_of_date).length)
  ∧ (∃ T, (.ok 1 : Except PyExc Nat) = .ok T ∧
      (∀ p ∈ List.range' 1 T, ∃ ds, discPagesEW p = .ok ds) ∧
      (∀ d ∈ (List.range' 1 T).flatMap fun p => okDiscs (discPagesEW p),
        d.updated_at ≤ 100 → ∃ ts, discPostsEW d.uuid = .ok ts ∧ ts ≠ []) ∧
      ["d1"] = (((List.range' 1 T).flatMap fun p => okDiscs (discPagesEW p)).filter fun d =>
          decide (d.updated_at ≤ 100) &&
            (okPosts (discPostsEW d.uuid)).all fun t => decide (t ≤ 100)).map
        fun d => d.uuid) :=
  ⟨(one_shot_all_or_nothing Solution).1 solutionsServerW [] 1
      [⟨"a", true⟩, ⟨"b", false⟩] [("page", "1")] [1] rfl,
   (one_shot_all_or_nothing Solution).2.1 solutionsServerW patchW 1 [⟨"a", false⟩] rfl,
   (one_shot_all_or_nothing Solution).2.2 (.ok 1) discPagesEW discPostsEW 100 ["d1"] rfl⟩

/-- The whole-day threshold of the classifier: `(now - ref).days > 300` in
Python (`timedelta.days` floors) is the same as `now - ref ≥ 301` days. -/
theorem fdiv_day_threshold (x : Int) : 300 < x.fdiv 86400 ↔ 86400 * 301 ≤ x := by
  rw [Int.fdiv_eq_ediv _ (by norm_num)]
  omega

/-- **C4**: for a candidate discussion with at least one mentor post (so that
`referenceTime` is defined), the decision of the `nudge()` driver is *finish*
iff `now - referenceTime` exceeds 300 whole days (i.e. is at least 301 days —
Python's `timedelta.days` floors) and the number of posts with
`updated_at >= referenceTime` exceeds 5, and *nudge* otherwise, where
`referenceTime` is the max of the first mentor post time and the last student
post time (defaulting to the former). -/
theorem finish_nudge_decision (now : Int) (posts : List Post) (ref : Int)
    (href : referenceTime posts = some ref) :
    (classifyFinish now posts = some true ↔
      86400 * 301 ≤ now - ref ∧
        5 < (posts.countP fun p => decide (ref ≤ p.updated_at)))
  ∧ (classifyFinish now posts = some false ↔
      ¬(86400 * 301 ≤ now - ref ∧
        5 < (posts.countP fun p => decide (ref ≤ p.updated_at)))) := by
  cases hmin : (mentorTimes posts).min? with
  | none => rw [referenceTime, firstMentorPostTime, hmin] at href; simp at href
  | some fm =>
    rw [referenceTime, firstMentorPostTime, hmin] at href
    simp only [Option.map_some'] at href
    obtain rfl := Option.some.inj href
    simp only [classifyFinish, hmin]
    rw [← List.countP_eq_length_filter]
    constructor
    · simp only [Option.some.injEq, Bool.and_eq_true, decide_eq_true_eq]
      rw [fdiv_day_threshold]
    · simp only [Option.some.injEq, Bool.and_eq_false_iff, decide_eq_false_iff_not,
        fdiv_day_threshold]
      tauto

/-- Witness posts for `finish_nudge_decision`: one mentor post and six student
posts, all at time 0. -/
def postsW : List Post :=
  [⟨0, false⟩, ⟨0, true⟩, ⟨0, true⟩, ⟨0, true⟩, ⟨0, true⟩, ⟨0, true⟩, ⟨0, true⟩]

/-- Witness for `finish_nudge_decision`: with `referenceTime` 400 days in the
past and 7 posts at it, the discussion classifies as finish. -/
theorem finish_nudge_decision_witness :
    classifyFinish (86400 * 400) postsW = some true :=
  (finish_nudge_decision (86400 * 400) postsW 0 rfl).1.mpr ⟨by norm_num, by decide⟩

/-- The inner filter of `old_mentor_discussions` keeps exactly the
discussions passing both staleness checks, in order, provided every traversed
discussion has at least one post. -/
theorem oldDiscGo_filter (cutoff : Int) (posts : String → List Int) :
    ∀ ds : List Discussion, (∀ d ∈ ds, posts d.uuid ≠ []) →
      oldDiscGo cutoff posts ds =
        .ok ((ds.filter fun d => decide (d.updated_at ≤ cutoff) &&
          (posts d.uuid).all fun t => decide (t ≤ cutoff)).map fun d => d.uuid) := by
  intro ds
  induction ds with
  | nil => intro _; rfl
  | cons d rest ih =>
    intro hne
    have ihr := ih fun d2 h2 => hne d2 (List.mem_cons_of_mem _ h2)
    rw [oldDiscGo]
    by_cases hup : cutoff < d.updated_at
    · rw [if_pos hup, ihr]
      have hpred : (decide (d.updated_at ≤ cutoff) &&
          ((posts d.uuid).all fun t => decide (t ≤ cutoff))) = false := by
        simp [not_le.mpr hup]
      rw [List.filter_cons, if_neg (by simp [hpred])]
    · rw [if_neg hup]
      split
      · rename_i heq
        obtain ⟨m, hm⟩ := int_max?_of_ne_nil (hne d (List.mem_cons_self ..))
        rw [hm] at heq
        exact Option.noConfusion heq
      rename_i m heq
      obtain ⟨hmem, hmax⟩ := int_max?_spec heq
      by_cases hmc : cutoff < m
      · rw [if_pos hmc, ihr]
        have hall : ((posts d.uuid).all fun t => decide (t ≤ cutoff)) = false :=
          List.all_eq_false.mpr ⟨m, hmem, by simp [not_le.mpr hmc]⟩
        rw [List.filter_cons, if_neg (by simp [hall])]
      · rw [if_neg hmc, ihr]
        have hall : ((posts d.uuid).all fun t => decide (t ≤ cutoff)) = true :=
          List.all_eq_true.mpr fun t ht => by
            simp [le_trans (hmax t ht) (not_lt.mp hmc)]
        have hpred : (decide (d.updated_at ≤ cutoff) &&
            ((posts d.uuid).all fun t => decide (t ≤ cutoff))) = true := by
          simp [not_lt.mp hup, hall]
        rw [List.filter_cons, if_pos hpred]
        simp [Except.map]

/-- **C5**: `old_mentor_discussions(status, age, order)` returns exactly the
uuids, in server page order, of the fetched discussions (all of which carry
the requested status) for which BOTH staleness checks hold: the discussion's
own `updated_at` is not more recent than the cutoff AND no post of the
discussion is more recent than the cutoff (equivalently, the max post time is
not).  Discussions failing either check are skipped.  The hypothesis that
every fetched discussion has at least one post makes Python's `max` of the
post dates defined. -/
theorem old_mentor_discussions_filter (pages : Nat → List Discussion)
    (posts : String → List Int) (page_count : Nat) (cutoff : Int) (status : String)
    (hposts : ∀ d ∈ (List.range' 1 page_count).flatMap pages, posts d.uuid ≠ [])
    (hstatus : ∀ d ∈ (List.range' 1 page_count).flatMap pages, d.status = status) :
    old_mentor_discussions pages posts page_count cutoff =
      .ok ((((List.range' 1 page_count).flatMap pages).filter fun d =>
          decide (d.updated_at ≤ cutoff) &&
            (posts d.uuid).all fun t => decide (t ≤ cutoff)).map fun d => d.uuid)
  ∧ ∀ d ∈ ((List.range' 1 page_count).flatMap pages).filter fun d =>
        decide (d.updated_at ≤ cutoff) &&
          (posts d.uuid).all fun t => decide (t ≤ cutoff),
      d.status = status := by
  refine ⟨oldDiscGo_filter cutoff posts _ hposts, ?_⟩
  intro d hd
  exact hstatus d (List.mem_filter.mp hd).1

/-- Witness pages for `old_mentor_discussions_filter`: two pages of
discussions in the requested status. -/
def discPagesW : Nat → List Discussion := fun p =>
  if p = 1 then [⟨"d1", "awaiting_student", 50⟩, ⟨"d2", "awaiting_student", 200⟩]
  else [⟨"d3", "awaiting_student", 10⟩]

/-- Witness posts for `old_mentor_discussions_filter`: `d1` has two old posts,
the others one old post each. -/
def discPostsW : String → List Int := fun u => if u = "d1" then [40, 90] else [5]

/-- Witness for `old_mentor_discussions_filter`: with cutoff 100, `d2` is
skipped (its own `updated_at` is 200 > 100) and `d1`, `d3` are returned in
page order. -/
theorem old_mentor_discussions_filter_witness :
    old_mentor_discussions discPagesW discPostsW 2 100 = .ok ["d1", "d3"] :=
  ((old_mentor_discussions_filter discPagesW discPostsW 2 100 "awaiting_student"
      (by decide) (by decide)).1).trans (by rfl)

theorem pollStep_seen_grows (seen : List String) (poll : List Notification) :
    seen ⊆ (pollStep seen poll).2 :=
  List.subset_append_left ..

theorem pollStep_seen_eq (seen : List String) (poll : List Notification) :
    (pollStep seen poll).2 = seen ++ (pollStep seen poll).1.map fun r => r.uuid := rfl

theorem pollStep_dispatched_unseen (seen : List String) (poll : List Notification) :
    ∀ d ∈ (pollStep seen poll).1, d.uuid ∉ seen := by
  intro d hd
  have := (List.mem_filter.mp hd).2
  simpa using this

theorem pollStep_dispatched_mem (seen : List String) (poll : List Notification) :
    ∀ d ∈ (pollStep seen poll).1, d ∈ poll ∧ d.is_read = false := by
  intro d hd
  obtain ⟨hd1, _⟩ := List.mem_filter.mp hd
  obtain ⟨hd2, hd3⟩ := List.mem_filter.mp hd1
  exact ⟨hd2, by simpa using hd3⟩

theorem pollStep_dispatches_unseen_unread (seen : List String) (poll : List Notification) :
    ∀ r ∈ poll, r.is_read = false → r.uuid ∉ seen → r ∈ (pollStep seen poll).1 := by
  intro r hr hread hseen
  exact List.mem_filter.mpr ⟨List.mem_filter.mpr ⟨hr, by simp [hread]⟩, by simpa using hseen⟩

theorem pollStep_nodup (seen : List String) (poll : List Notification)
    (hnod : (poll.map fun r => r.uuid).Nodup) :
    ((pollStep seen poll).1.map fun r => r.uuid).Nodup := by
  have hsub : (pollStep seen poll).1.Sublist poll := by
    simp only [pollStep]
    exact (List.filter_sublist _).trans (List.filter_sublist poll)
  exact (hsub.map fun r => r.uuid).nodup hnod

/-- Run invariants of the polling loop, by induction over the schedule:
the seen-set only grows, nothing already seen is ever dispatched, and (when
each poll response has pairwise distinct uuids) no uuid is dispatched twice. -/
theorem watcherGo_spec (polls : List (List Notification)) :
    ∀ seen, (∀ poll ∈ polls, (poll.map fun r => r.uuid).Nodup) →
      seen ⊆ (watcherGo seen polls).2
    ∧ (∀ d ∈ (watcherGo seen polls).1.flatten, d.uuid ∉ seen)
    ∧ ((watcherGo seen polls).1.flatten.map fun r => r.uuid).Nodup := by
  induction polls with
  | nil => intro seen h; simp [watcherGo, List.Subset.refl]
  | cons poll rest ih =>
    intro seen hnod
    have hnodp : (poll.map fun r => r.uuid).Nodup := hnod poll (List.mem_cons_self ..)
    have hnodr : ∀ p ∈ rest, (p.map fun r => r.uuid).Nodup :=
      fun p hp => hnod p (List.mem_cons_of_mem _ hp)
    obtain ⟨ihsub, ihunseen, ihnodup⟩ := ih (pollStep seen poll).2 hnodr
    rw [watcherGo]
    refine ⟨?_, ?_, ?_⟩
    · exact fun u hu => ihsub (pollStep_seen_grows seen poll hu)
    · intro d hd
      rw [List.flatten_cons, List.mem_append] at hd
      rcases hd with hd | hd
      · exact pollStep_dispatched_unseen seen poll d hd
      · intro hseen
        exact ihunseen d hd (pollStep_seen_grows seen poll hseen)
    · rw [List.flatten_cons, List.map_append, List.nodup_append]
      refine ⟨pollStep_nodup seen poll hnodp, ihnodup, ?_⟩
      intro u hu1 hu2
      obtain ⟨d1, hd1, hu1e⟩ := List.mem_map.mp hu1
      obtain ⟨d2, hd2, hu2e⟩ := List.mem_map.mp hu2
      have : d2.uuid ∉ (pollStep seen poll).2 := ihunseen d2 hd2
      rw [pollStep_seen_eq] at this
      exact this (List.mem_append.mpr (Or.inr (by
        rw [hu2e, ← hu1e]
        exact List.mem_map.mpr ⟨d1, hd1, rfl⟩)))

/-- **C6**: across a watch session, the seen-set only grows (each cycle's
seen-set extends the previous one); every notification recorded at priming
time is in the final seen-set and is never dispatched, even if refetched
later; a notification that is unread and unseen when a poll fetches it is
dispatched in that cycle; and, provided each poll response lists each uuid at
most once, no uuid is ever dispatched twice across the whole run — in
particular one still unread on the next poll is not redelivered, whatever its
later `is_read` state. -/
theorem notification_watcher_invariants (priming : List Notification)
    (polls : List (List Notification))
    (hnod : ∀ poll ∈ polls, (poll.map fun r => r.uuid).Nodup) :
    (∀ seen poll, seen ⊆ (pollStep seen poll).2)
  ∧ (∀ u ∈ priming.map fun r => r.uuid, u ∈ (notification_pusher priming polls).2)
  ∧ (∀ d ∈ (notification_pusher priming polls).1.flatten,
      d.uuid ∉ priming.map fun r => r.uuid)
  ∧ (((notification_pusher priming polls).1.flatten.map fun r => r.uuid).Nodup)
  ∧ (∀ seen poll r, r ∈ poll → r.is_read = false → r.uuid ∉ seen →
      r ∈ (pollStep seen poll).1) := by
  obtain ⟨hsub, hunseen, hnodup⟩ := watcherGo_spec polls (priming.map fun r => r.uuid) hnod
  exact ⟨pollStep_seen_grows, fun u hu => hsub hu, hunseen, hnodup,
    pollStep_dispatches_unseen_unread⟩

/-- Witness for `notification_watcher_invariants`: `n1` is present at priming
and refetched later but never dispatched; `n2` is dispatched once on the first
poll even though it is still unread on the second; `n3` is read, so never
dispatched; `n4` is dispatched once. -/
theorem notification_watcher_invariants_witness :
    notification_pusher [⟨"n1", false⟩]
        [[⟨"n1", false⟩, ⟨"n2", false⟩, ⟨"n3", true⟩], [⟨"n2", false⟩, ⟨"n4", false⟩]] =
      ([[⟨"n2", false⟩], [⟨"n4", false⟩]], ["n1", "n2", "n4"])
  ∧ ((notification_pusher [⟨"n1", false⟩]
        [[⟨"n1", false⟩, ⟨"n2", false⟩, ⟨"n3", true⟩],
         [⟨"n2", false⟩, ⟨"n4", false⟩]]).1.flatten.map fun r => r.uuid).Nodup :=
  ⟨by rfl,
   (notification_watcher_invariants [⟨"n1", false⟩]
      [[⟨"n1", false⟩, ⟨"n2", false⟩, ⟨"n3", true⟩], [⟨"n2", false⟩, ⟨"n4", false⟩]]
      (by decide)).2.2.2.1⟩
